import Mathlib

/-!
# Verification of the pygconsole terminal-emulation core

Shallow embedding of `pygconsole/console.py` and `pygconsole/io.py`.

Modelling conventions:
* The data model of a `Console` instance (presentation stream, cursor, viewport
  window, pen state, transparencies) is the structure `ConsoleState`.  Python
  integers are `Int`; the presentation stream (a `collections.deque` of
  `CharArgs`-or-`None` with maxlen `_char_memory_size`) is a
  `List (Option CharArgs)` together with the explicit maxlen-trimming the deque
  performs on `extend` and on construction.
* Surface rendering (`_render_all`, `_render_char`, `_render_chars`,
  `_chartopixcoord`) only draws pixels onto the pygame surface; it is the
  external Renderer collaborator and is not part of the data model, so the
  embedded operations omit those calls.  Logging is likewise omitted.
* A Python method that can raise is embedded as a function returning
  `Option PyErr × ConsoleState`: `(none, c)` is normal completion with final
  state `c`, `(some e, c)` means the exception `e` escapes with the object left
  in the partially mutated state `c`.
* `deque` indexing (`d[i]`, `d[i] = v`) supports negative indices counting from
  the right and raises `IndexError` out of range; `dqSet` models this.
* The model assumes the positive console dimensions that `get_console` and the
  `width`/`height` setters establish (`Int.fdiv` by `0` would silently give `0`
  where Python raises `ZeroDivisionError`; no claim exercises that case).
-/

namespace PygConsole

/-- Colour namedtuple "red green blue alpha" from console.py. -/
structure Colour where
  red : Int
  green : Int
  blue : Int
  alpha : Int
deriving DecidableEq, Repr

/-- CharArgs dataclass: the characteristics of one written character cell. -/
structure CharArgs where
  foreground_colour : Colour := ⟨255, 255, 255, 255⟩
  background_colour : Colour := ⟨0, 0, 0, 255⟩
  italic : Bool := false
  bold : Bool := false
  underline : Bool := false
  str : Char := ' '
deriving DecidableEq, Repr

/-- Python exceptions that the embedded code can raise. -/
inductive PyErr where
  | indexError
  | typeError
  | valueError
  | unicodeDecodeError
deriving DecidableEq, Repr

/-- Data model of a Console instance: the presentation stream with cursor and
viewport window, plus the current pen (colours, style flags, transparencies). -/
structure ConsoleState where
  width : Nat
  height : Nat
  char_memory_size : Nat
  presentation_stream : List (Option CharArgs)
  cursor : Int
  start_window : Int
  end_window : Int
  font_transparency : Int
  background_transparency : Int
  default_foreground_colour : Colour
  default_background_colour : Colour
  current_foreground_colour : Colour
  current_background_colour : Colour
  italic : Bool
  bold : Bool
  underline : Bool
deriving DecidableEq, Repr

/-- Values handed to the colour setters: a string, a tuple/list of ints (the
`Colour` namedtuple is a 4-tuple), or a non-sequence value such as an int. -/
inductive PyValue where
  | pystr (s : String)
  | pyseq (xs : List Int)
  | pyint (n : Int)
deriving DecidableEq, Repr

/-- Python `range(a, b)` over integers, as the list `[a, a+1, ..., b-1]`. -/
def pyRange (a b : Int) : List Int :=
  (List.range (b - a).toNat).map (fun (k : Nat) => a + (k : Int))

/-- Deque item assignment `d[i] = v`: a negative index counts from the right,
an out-of-range index raises `IndexError`. -/
def dqSet (xs : List (Option CharArgs)) (i : Int) (v : Option CharArgs) :
    Except PyErr (List (Option CharArgs)) :=
  let n : Int := xs.length
  let j : Int := if i < 0 then i + n else i
  if 0 ≤ j ∧ j < n then .ok (xs.set j.toNat v) else .error .indexError

/-- A fresh deque `deque([None]*n, maxlen)`: when `maxlen < n` the deque keeps
only the last `maxlen` items. -/
def dequeNew (n maxlen : Nat) : List (Option CharArgs) :=
  (List.replicate n (none : Option CharArgs)).drop (n - maxlen)

/-- `deque.extend([None]*k)` on a deque with maxlen: items beyond the maxlen
are silently dropped from the left. -/
def dequeExtendNones (xs : List (Option CharArgs)) (k maxlen : Nat) :
    List (Option CharArgs) :=
  let ys := xs ++ List.replicate k (none : Option CharArgs)
  ys.drop (ys.length - maxlen)

/-- DEFAULT_CHAR_MEMORY_SIZE = 80*24*10. -/
def DEFAULT_CHAR_MEMORY_SIZE : Nat := 80 * 24 * 10

/-- The data-model part of `Console._init_console` for a console of the given
dimensions and transparencies (default colours are bright white on black, each
carrying the channel's transparency). -/
def initConsole (width height : Nat) (font_tr bg_tr : Int) : ConsoleState :=
  { width := width
    height := height
    char_memory_size := DEFAULT_CHAR_MEMORY_SIZE
    presentation_stream := List.replicate (width * height) none
    cursor := 0
    start_window := 0
    end_window := (width * height : Int) - 1
    font_transparency := font_tr
    background_transparency := bg_tr
    default_foreground_colour := ⟨255, 255, 255, font_tr⟩
    default_background_colour := ⟨0, 0, 0, bg_tr⟩
    current_foreground_colour := ⟨255, 255, 255, font_tr⟩
    current_background_colour := ⟨0, 0, 0, bg_tr⟩
    italic := false
    bold := false
    underline := false }

/-- The `memory_size` setter: a value below `width*height` is rejected (state
kept); otherwise the memory size is recorded and the console re-initialized. -/
def setMemorySize (c : ConsoleState) (value : Nat) : ConsoleState :=
  if c.width * c.height ≤ value then
    { c with
      char_memory_size := value
      presentation_stream := dequeNew (c.width * c.height) value
      cursor := 0
      start_window := 0
      end_window := (c.width * c.height : Int) - 1 }
  else c

/-- The `font_transparency` setter on an integer argument: the value is clamped
into `[0, 255]` and stored (the `_render_all` call is rendering, omitted). -/
def setFontTransparency (c : ConsoleState) (value : Int) : ConsoleState :=
  let value_int := if 255 < value then 255 else if value < 0 then 0 else value
  { c with font_transparency := value_int }

/-- The `background_transparency` setter on an integer argument, clamping into
`[0, 255]`. -/
def setBackgroundTransparency (c : ConsoleState) (value : Int) : ConsoleState :=
  let value_int := if 255 < value then 255 else if value < 0 then 0 else value
  { c with background_transparency := value_int }

/-- STANDARD_COLOURS table (all with DEFAULT_ALPHA = 255). -/
def STANDARD_COLOURS : List (String × Colour) :=
  [("black", ⟨0, 0, 0, 255⟩), ("red", ⟨170, 0, 0, 255⟩),
   ("green", ⟨0, 170, 0, 255⟩), ("yellow", ⟨170, 85, 0, 255⟩),
   ("blue", ⟨0, 0, 170, 255⟩), ("magenta", ⟨170, 0, 170, 255⟩),
   ("cyan", ⟨0, 170, 170, 255⟩), ("white", ⟨170, 170, 170, 255⟩),
   ("bright_black", ⟨85, 85, 85, 255⟩), ("bright_red", ⟨255, 85, 85, 255⟩),
   ("bright_green", ⟨85, 255, 85, 255⟩), ("bright_yellow", ⟨255, 255, 85, 255⟩),
   ("bright_blue", ⟨85, 85, 255, 255⟩), ("bright_magenta", ⟨255, 85, 255, 255⟩),
   ("bright_cyan", ⟨85, 255, 255, 255⟩), ("bright_white", ⟨255, 255, 255, 255⟩)]

/-- Membership lookup in STANDARD_COLOURS. -/
def lookupStandardColour (s : String) : Option Colour :=
  (STANDARD_COLOURS.find? (fun p => p.1 == s)).map (fun p => p.2)

/-- Check `-1 < x < 256` on every tuple component, as the colour setters do. -/
def colourComponentsOk (xs : List Int) : Bool :=
  xs.all (fun x => decide (-1 < x) && decide (x < 256))

/-- The `foreground_colour` setter.  A known colour name or `"default"` is
resolved with the font transparency as alpha; an in-range 4-tuple is stored and
additionally updates `font_transparency` through its setter; an in-range
3-tuple inherits the font transparency; any other string or tuple leaves the
state unchanged (with a warning for malformed tuples); a non-sequence value
reaches `len(value)` and raises `TypeError`. -/
def setForegroundColour (c : ConsoleState) (value : PyValue) :
    Option PyErr × ConsoleState :=
  match value with
  | .pystr s =>
    match lookupStandardColour s with
    | some col =>
      (none, { c with current_foreground_colour := { col with alpha := c.font_transparency } })
    | none =>
      if s = "default" then
        (none, { c with current_foreground_colour :=
          { c.default_foreground_colour with alpha := c.font_transparency } })
      else (none, c)
  | .pyseq xs =>
    if xs.length = 4 then
      if colourComponentsOk xs then
        let c1 := { c with current_foreground_colour :=
          (⟨xs.getD 0 0, xs.getD 1 0, xs.getD 2 0, xs.getD 3 0⟩ : Colour) }
        (none, setFontTransparency c1 (xs.getD 3 0))
      else (none, c)
    else if xs.length = 3 then
      if colourComponentsOk xs then
        (none, { c with current_foreground_colour :=
          (⟨xs.getD 0 0, xs.getD 1 0, xs.getD 2 0, c.font_transparency⟩ : Colour) })
      else (none, c)
    else (none, c)
  | .pyint _ => (some .typeError, c)

/-- The `background_colour` setter, the mirror image of `setForegroundColour`
on the background channel. -/
def setBackgroundColour (c : ConsoleState) (value : PyValue) :
    Option PyErr × ConsoleState :=
  match value with
  | .pystr s =>
    match lookupStandardColour s with
    | some col =>
      (none, { c with current_background_colour := { col with alpha := c.background_transparency } })
    | none =>
      if s = "default" then
        (none, { c with current_background_colour :=
          { c.default_background_colour with alpha := c.background_transparency } })
      else (none, c)
  | .pyseq xs =>
    if xs.length = 4 then
      if colourComponentsOk xs then
        let c1 := { c with current_background_colour :=
          (⟨xs.getD 0 0, xs.getD 1 0, xs.getD 2 0, xs.getD 3 0⟩ : Colour) }
        (none, setBackgroundTransparency c1 (xs.getD 3 0))
      else (none, c)
    else if xs.length = 3 then
      if colourComponentsOk xs then
        (none, { c with current_background_colour :=
          (⟨xs.getD 0 0, xs.getD 1 0, xs.getD 2 0, c.background_transparency⟩ : Colour) })
      else (none, c)
    else (none, c)
  | .pyint _ => (some .typeError, c)

/-- `add_char` for a single character: build the cell from the current pen,
append one blank row (with maxlen eviction and window shift) when the cursor
is at or past the end of the stream, then store the cell at the cursor and
advance the cursor.  The deque assignment raises `IndexError` when the cursor
is still out of range after the one-row extension. -/
def addChar1 (c : ConsoleState) (ch : Char) : Option PyErr × ConsoleState :=
  let char_args : CharArgs :=
    { foreground_colour := c.current_foreground_colour
      background_colour := c.current_background_colour
      italic := c.italic
      bold := c.bold
      underline := c.underline
      str := ch }
  let c :=
    if (c.presentation_stream.length : Int) ≤ c.cursor then
      { c with
        presentation_stream :=
          dequeExtendNones c.presentation_stream c.width c.char_memory_size
        start_window := c.start_window + c.width
        end_window := c.end_window + c.width }
    else c
  match dqSet c.presentation_stream c.cursor (some char_args) with
  | .ok s => (none, { c with presentation_stream := s, cursor := c.cursor + 1 })
  | .error e => (some e, c)

/-- `add_char` on a string: the empty string does nothing, otherwise each
character is added in turn with identical per-character semantics (the
single-character and multi-character branches differ only in rendering). -/
def add_char : ConsoleState → List Char → Option PyErr × ConsoleState
  | c, [] => (none, c)
  | c, ch :: rest =>
    match addChar1 c ch with
    | (some e, c1) => (some e, c1)
    | (none, c1) => add_char c1 rest

/-- Set each listed stream index to `None` in order, stopping with the raised
exception if an index is out of range. -/
def clearCells (c : ConsoleState) : List Int → Option PyErr × ConsoleState
  | [] => (none, c)
  | i :: rest =>
    match dqSet c.presentation_stream i none with
    | .ok s => clearCells { c with presentation_stream := s } rest
    | .error e => (some e, c)

/-- `clear(mode)`: `"before"` empties `[start_window, cursor)`, `"after"`
empties `[cursor, end_window]`, `"all_without_memory"` empties
`[start_window, end_window]`; any other mode (the default is `"all"`)
re-initializes the stream, cursor and window. -/
def clear (c : ConsoleState) (mode : String) : Option PyErr × ConsoleState :=
  if mode = "before" then
    clearCells c (pyRange c.start_window c.cursor)
  else if mode = "after" then
    clearCells c (pyRange c.cursor (c.end_window + 1))
  else if mode = "all_without_memory" then
    clearCells c (pyRange c.start_window (c.end_window + 1))
  else
    (none, { c with
      presentation_stream := dequeNew (c.width * c.height) c.char_memory_size
      cursor := 0
      start_window := 0
      end_window := (c.width * c.height : Int) - 1 })

/-- `scroll(nb_lines, up)`: move the viewport window over the stream.  Going up
clamps `start_window` at `0`; going down the guard is `end_window + width*n >
len(stream)` (note: `> len`, not `> len - 1`) with clamp `len - 1`; the other
bound is recomputed from the window size. -/
def scroll (c : ConsoleState) (nb_lines : Int) (up : Bool) : ConsoleState :=
  if up then
    let sw :=
      if c.start_window - (c.width : Int) * nb_lines < 0 then 0
      else c.start_window - (c.width : Int) * nb_lines
    { c with start_window := sw, end_window := sw + (c.width : Int) * c.height - 1 }
  else
    let len : Int := c.presentation_stream.length
    let ew :=
      if len < c.end_window + (c.width : Int) * nb_lines then len - 1
      else c.end_window + (c.width : Int) * nb_lines
    { c with end_window := ew, start_window := ew - (c.width : Int) * c.height + 1 }

/-- `carriage_return()`: move the cursor to the first position of its line
(Python floor division). -/
def carriage_return (c : ConsoleState) : ConsoleState :=
  { c with cursor := (Int.fdiv c.cursor c.width) * c.width }

/-- `line_field()`: move the cursor one row down, same column. -/
def line_field (c : ConsoleState) : ConsoleState :=
  { c with cursor := c.cursor + c.width }

/-! ## UTF-8

Strict UTF-8 as CPython's `utf-8` codec accepts it: the lead byte determines
how many continuation bytes follow and the admissible range of the first one
(rejecting overlong encodings, surrogates, and code points above `0x10FFFF`).
On error, `UnicodeDecodeError.start` is the index of the first byte of the
first invalid or incomplete sequence, i.e. the length of the longest prefix
made of complete valid characters.
-/

/-- For a lead byte, the list of admissible `(lo, hi)` ranges of its
continuation bytes; `none` when the byte cannot start a character. -/
def leadRanges (b : Nat) : Option (List (Nat × Nat)) :=
  if b ≤ 0x7f then some []
  else if 0xc2 ≤ b ∧ b ≤ 0xdf then some [(0x80, 0xbf)]
  else if b = 0xe0 then some [(0xa0, 0xbf), (0x80, 0xbf)]
  else if (0xe1 ≤ b ∧ b ≤ 0xec) ∨ b = 0xee ∨ b = 0xef then
    some [(0x80, 0xbf), (0x80, 0xbf)]
  else if b = 0xed then some [(0x80, 0x9f), (0x80, 0xbf)]
  else if b = 0xf0 then some [(0x90, 0xbf), (0x80, 0xbf), (0x80, 0xbf)]
  else if 0xf1 ≤ b ∧ b ≤ 0xf3 then some [(0x80, 0xbf), (0x80, 0xbf), (0x80, 0xbf)]
  else if b = 0xf4 then some [(0x80, 0x8f), (0x80, 0xbf), (0x80, 0xbf)]
  else none

/-- Consume one continuation byte per required range, returning the remaining
bytes, or `none` if a byte is missing or out of range. -/
def takeConts : List (Nat × Nat) → List Nat → Option (List Nat)
  | [], bs => some bs
  | (lo, hi) :: rs, b :: bs =>
    if lo ≤ b ∧ b ≤ hi then takeConts rs bs else none
  | _ :: _, [] => none

/-- Code point of a character from its lead byte and continuation bytes. -/
def utf8Combine (lead : Nat) (conts : List Nat) : Nat :=
  let init :=
    if lead ≤ 0x7f then lead
    else if lead ≤ 0xdf then lead - 0xc0
    else if lead ≤ 0xef then lead - 0xe0
    else lead - 0xf0
  conts.foldl (fun acc b => acc * 64 + (b - 0x80)) init

/-- Fuelled strict decoder to a character list (`none` on any invalid or
incomplete sequence); the fuel only needs to be at least the byte count. -/
def utf8DecodeCharsAux : Nat → List Nat → Option (List Char)
  | _, [] => some []
  | 0, _ :: _ => none
  | fuel + 1, b :: rest =>
    match leadRanges b with
    | none => none
    | some rs =>
      match takeConts rs rest with
      | none => none
      | some r =>
        match utf8DecodeCharsAux fuel r with
        | none => none
        | some cs => some (Char.ofNat (utf8Combine b (rest.take rs.length)) :: cs)

/-- Strict decode of a whole byte string, as `codecs.decode(b, 'utf-8',
'strict')`. -/
def utf8DecodeChars (bs : List Nat) : Option (List Char) :=
  utf8DecodeCharsAux bs.length bs

/-- A byte string is valid UTF-8 iff the strict decode succeeds. -/
def utf8Valid (bs : List Nat) : Bool :=
  (utf8DecodeChars bs).isSome

/-- Fuelled scan returning the length of the longest prefix made of complete
valid characters (CPython's `UnicodeDecodeError.start`). -/
def utf8ScanAux : Nat → List Nat → Nat
  | _, [] => 0
  | 0, _ :: _ => 0
  | fuel + 1, b :: rest =>
    match leadRanges b with
    | none => 0
    | some rs =>
      match takeConts rs rest with
      | none => 0
      | some r => (1 + rs.length) + utf8ScanAux fuel r

/-- Length of the longest valid-UTF-8 prefix of complete characters. -/
def utf8ValidPrefixLen (bs : List Nat) : Nat :=
  utf8ScanAux bs.length bs

/-! ## Python string helpers used by the decoder -/

/-- ASCII whitespace stripped by Python's `int()` (the further Unicode
whitespace code points never arise from the byte values relevant here). -/
def isPyWs (ch : Char) : Bool :=
  ch == ' ' || ch == '\t' || ch == '\n' || ch == '\x0b' || ch == '\x0c' || ch == '\r'

/-- Strip leading and trailing whitespace. -/
def stripPyWs (cs : List Char) : List Char :=
  ((cs.dropWhile isPyWs).reverse.dropWhile isPyWs).reverse

/-- After an initial digit: the remaining characters must be digits, with
single underscores allowed only between digits. -/
def digitsTail : List Char → Bool
  | [] => true
  | '_' :: rest =>
    match rest with
    | [] => false
    | ch :: rest2 => ch.isDigit && digitsTail rest2
  | ch :: rest => ch.isDigit && digitsTail rest

/-- A digit group as Python's `int()` accepts it: nonempty, digits with single
underscores strictly between digits. -/
def isPyIntDigits : List Char → Bool
  | [] => false
  | ch :: rest => ch.isDigit && digitsTail rest

/-- Numeric value of a digit group, skipping underscores. -/
def digitsValue (cs : List Char) : Nat :=
  cs.foldl (fun a ch => if ch = '_' then a else a * 10 + (ch.toNat - 48)) 0

/-- Python `int(s)` on a decoded string: optional surrounding whitespace,
optional single sign, then a digit group; `none` models the `ValueError`.
The model is exact for ASCII strings — checked against CPython, whose `int()`
strips exactly tab, LF, VT, FF, CR and space in the ASCII range (not
`\x1c`-`\x1f`) and accepts single underscores strictly between digits.
CPython's `int()` additionally accepts non-ASCII Unicode decimal digits and
whitespace (for example U+0664 ARABIC-INDIC DIGIT FOUR parses as 4), with
tables that depend on the interpreter's Unicode version; that non-ASCII
behaviour is not modelled, and the theorem about the Erase-in-Display
dispatch is accordingly stated for ASCII parameter bytes only. -/
def pyStrToInt (cs : List Char) : Option Int :=
  let t := stripPyWs cs
  match t with
  | [] => none
  | ch :: rest =>
    let sign : Int := if ch = '-' then -1 else 1
    let digits := if ch = '-' ∨ ch = '+' then rest else t
    if isPyIntDigits digits then some (sign * (digitsValue digits : Int)) else none

/-- `int(bytes.decode('utf-8'))` with both the decode failure
(`UnicodeDecodeError`, a subclass of `ValueError`) and the parse failure
returned as `none`. -/
def pyParseIntBytes (bs : List Nat) : Option Int :=
  match utf8DecodeChars bs with
  | none => none
  | some cs => pyStrToInt cs

/-- Python `str.split(sep)` for a one-character separator: note that splitting
the empty string yields `[""]`, never the empty list. -/
def pySplitAux (sep : Char) : List Char → List Char → List (List Char)
  | [], cur => [cur.reverse]
  | ch :: cs, cur =>
    if ch = sep then cur.reverse :: pySplitAux sep cs []
    else pySplitAux sep cs (ch :: cur)

/-- Python `str.split(sep)` (single-character separator). -/
def pySplit (sep : Char) (s : List Char) : List (List Char) :=
  pySplitAux sep s []

/-! ## The escape-sequence decoder of `RawIOConsole` -/

/-- Result classification of `_esc_seq_decode`. -/
inductive DecodeStatus where
  | successful
  | error
  | incomplete
deriving DecidableEq, Repr

/-- Bind for operations that either complete or leave a raised exception. -/
def pbind (r : Option PyErr × ConsoleState)
    (f : ConsoleState → Option PyErr × ConsoleState) : Option PyErr × ConsoleState :=
  match r with
  | (some e, c) => (some e, c)
  | (none, c) => f c

/-- SUPPORTED_SGR_PARAMETERS lookup (key, action name). -/
def sgrParamAction (p : List Char) : Option String :=
  if p = ['0'] then some "reset"
  else if p = ['1'] then some "bold"
  else if p = ['3'] then some "italic"
  else if p = ['4'] then some "underline"
  else if p = ['7'] then some "negative"
  else if p = ['2', '2'] then some "not_bold"
  else if p = ['2', '3'] then some "not_italic"
  else if p = ['2', '4'] then some "not_underline"
  else if p = ['2', '7'] then some "positive"
  else none

/-- STANDARD_FOREGROUND_COLOURS lookup. -/
def standardForegroundColourName (p : List Char) : Option String :=
  if p = ['3', '0'] then some "black"
  else if p = ['3', '1'] then some "red"
  else if p = ['3', '2'] then some "green"
  else if p = ['3', '3'] then some "yellow"
  else if p = ['3', '4'] then some "blue"
  else if p = ['3', '5'] then some "magenta"
  else if p = ['3', '6'] then some "cyan"
  else if p = ['3', '7'] then some "white"
  else if p = ['9', '0'] then some "bright_black"
  else if p = ['9', '1'] then some "bright_red"
  else if p = ['9', '2'] then some "bright_green"
  else if p = ['9', '3'] then some "bright_yellow"
  else if p = ['9', '4'] then some "bright_blue"
  else if p = ['9', '5'] then some "bright_magenta"
  else if p = ['9', '6'] then some "bright_cyan"
  else if p = ['9', '7'] then some "bright_white"
  else none

/-- STANDARD_BACKGROUND_COLOURS lookup. -/
def standardBackgroundColourName (p : List Char) : Option String :=
  if p = ['4', '0'] then some "black"
  else if p = ['4', '1'] then some "red"
  else if p = ['4', '2'] then some "green"
  else if p = ['4', '3'] then some "yellow"
  else if p = ['4', '4'] then some "blue"
  else if p = ['4', '5'] then some "magenta"
  else if p = ['4', '6'] then some "cyan"
  else if p = ['4', '7'] then some "white"
  else if p = ['1', '0', '0'] then some "bright_black"
  else if p = ['1', '0', '1'] then some "bright_red"
  else if p = ['1', '0', '2'] then some "bright_green"
  else if p = ['1', '0', '3'] then some "bright_yellow"
  else if p = ['1', '0', '4'] then some "bright_blue"
  else if p = ['1', '0', '5'] then some "bright_magenta"
  else if p = ['1', '0', '6'] then some "bright_cyan"
  else if p = ['1', '0', '7'] then some "bright_white"
  else none

/-- A stored `Colour` namedtuple passed back into a colour setter is a
4-tuple. -/
def colourToSeq (col : Colour) : PyValue :=
  .pyseq [col.red, col.green, col.blue, col.alpha]

/-- Apply one SGR sub-parameter to the console, as the body of the SGR loop:
supported style parameters, then standard foreground and background colours;
anything else is silently ignored. -/
def applySgrParam (c : ConsoleState) (p : List Char) : Option PyErr × ConsoleState :=
  match sgrParamAction p with
  | some a =>
    if a = "reset" then
      let c := { c with bold := false, italic := false, underline := false }
      pbind (setForegroundColour c (.pystr "default"))
        (fun c2 => setBackgroundColour c2 (.pystr "default"))
    else if a = "bold" then (none, { c with bold := true })
    else if a = "italic" then (none, { c with italic := true })
    else if a = "underline" then (none, { c with underline := true })
    else if a = "negative" then
      let temp := c.current_foreground_colour
      pbind (setForegroundColour c (colourToSeq c.current_background_colour))
        (fun c2 => setBackgroundColour c2 (colourToSeq temp))
    else if a = "not_bold" then (none, { c with bold := false })
    else if a = "not_italic" then (none, { c with italic := false })
    else if a = "not_underline" then (none, { c with underline := false })
    else if a = "positive" then
      let temp := c.current_foreground_colour
      pbind (setForegroundColour c (colourToSeq c.current_background_colour))
        (fun c2 => setBackgroundColour c2 (colourToSeq temp))
    else (none, c)
  | none =>
    match standardForegroundColourName p with
    | some nm => setForegroundColour c (.pystr nm)
    | none =>
      match standardBackgroundColourName p with
      | some nm => setBackgroundColour c (.pystr nm)
      | none => (none, c)

/-- Apply a list of SGR sub-parameters in order. -/
def applySgrParams (c : ConsoleState) : List (List Char) → Option PyErr × ConsoleState
  | [] => (none, c)
  | p :: rest => pbind (applySgrParam c p) (fun c2 => applySgrParams c2 rest)

/-- Lift a `clear` call into the decoder result: normal completion classifies
the sequence as successful, a raised exception propagates. -/
def liftClear (r : Option PyErr × ConsoleState) :
    Except (PyErr × ConsoleState) (DecodeStatus × ConsoleState) :=
  match r with
  | (some e, c) => .error (e, c)
  | (none, c) => .ok (.successful, c)

/-- The ED (Erase in Display) dispatch: the parameter bytes are parsed as an
integer with default 3 on any `ValueError` (including a decode error), then
modes 0..3 invoke the four `clear` variants and any other integer is an
error. -/
def edDispatch (c : ConsoleState) (paramBytes : List Nat) :
    Except (PyErr × ConsoleState) (DecodeStatus × ConsoleState) :=
  let mode := (pyParseIntBytes paramBytes).getD 3
  if mode = 0 then liftClear (clear c "after")
  else if mode = 1 then liftClear (clear c "before")
  else if mode = 2 then liftClear (clear c "all_without_memory")
  else if mode = 3 then liftClear (clear c "all")
  else .ok (.error, c)

/-- The SGR dispatch: decode the parameter bytes (an undecodable sequence
raises `UnicodeDecodeError`, uncaught in this branch), normalize `:` to `;`,
split, and apply every sub-parameter. -/
def sgrDispatch (c : ConsoleState) (paramBytes : List Nat) :
    Except (PyErr × ConsoleState) (DecodeStatus × ConsoleState) :=
  match utf8DecodeChars paramBytes with
  | none => .error (.unicodeDecodeError, c)
  | some cs =>
    let formatted := cs.map (fun ch => if ch = ';' ∨ ch = ':' then ';' else ch)
    let seq_list := pySplit ';' formatted
    let seq_list := if seq_list = [] then [['0']] else seq_list
    match applySgrParams c seq_list with
    | (some e, c2) => .error (e, c2)
    | (none, c2) => .ok (.successful, c2)

/-- `_esc_seq_decode`: classify an accumulated escape sequence, invoking the
console operations of the supported commands.  A single LF or CR is complete;
ESC alone or ESC `[` without a final byte is incomplete; the CSI commands
`J`, `S`, `T`, `m` dispatch; everything else is an error. -/
def escSeqDecode (sequence : List Nat) (c : ConsoleState) :
    Except (PyErr × ConsoleState) (DecodeStatus × ConsoleState) :=
  match sequence with
  | [] => .ok (.incomplete, c)
  | b0 :: rest =>
    if b0 ≤ 0x1f then
      if b0 = 0x1b then
        match rest with
        | [] => .ok (.incomplete, c)
        | b1 :: rest2 =>
          if 0x40 ≤ b1 ∧ b1 ≤ 0x5f then
            if b1 = 0x5b then
              if rest2 = [] then .ok (.incomplete, c)
              else
                let lastByte := rest2.getLastD 0
                let paramBytes := rest2.dropLast
                if 0x40 ≤ lastByte ∧ lastByte ≤ 0x7e then
                  if lastByte = 0x4a then edDispatch c paramBytes
                  else if lastByte = 0x53 then
                    .ok (.successful, scroll c ((pyParseIntBytes paramBytes).getD 1) true)
                  else if lastByte = 0x54 then
                    .ok (.successful, scroll c ((pyParseIntBytes paramBytes).getD 1) false)
                  else if lastByte = 0x6d then sgrDispatch c paramBytes
                  else .ok (.error, c)
                else .ok (.incomplete, c)
            else .ok (.error, c)
          else .ok (.error, c)
      else if b0 = 0x0a then .ok (.successful, line_field c)
      else if b0 = 0x0d then .ok (.successful, carriage_return c)
      else .ok (.error, c)
    else .ok (.error, c)

/-! ## The byte-stream `write` of `RawIOConsole` -/

/-- Streaming state of a `RawIOConsole`: the underlying console, the
accumulated undecoded escape sequence, and the pending printable bytes. -/
structure RawIOState where
  console : ConsoleState
  byte_esc_seq : List Nat
  byte_displaying_char : List Nat
deriving DecidableEq, Repr

/-- Flush the pending printable bytes to the console as one decoded string
(on an exception the pending buffer is not cleared, as in the source). -/
def flushDisplay (st : RawIOState) : Option PyErr × RawIOState :=
  if st.byte_displaying_char = [] then (none, st)
  else
    match utf8DecodeChars st.byte_displaying_char with
    | none => (some .unicodeDecodeError, st)
    | some cs =>
      match add_char st.console cs with
      | (some e, c) => (some e, { st with console := c })
      | (none, c) => (none, { st with console := c, byte_displaying_char := [] })

/-- Handle one decode attempt of the accumulated sequence: on `error` or
`successful` the accumulator is reset, on `incomplete` it keeps the sequence,
and a raised exception leaves the appended sequence in place. -/
def stepEscSeq (st : RawIOState) (seq : List Nat) : Option PyErr × RawIOState :=
  match escSeqDecode seq st.console with
  | .error (e, c) => (some e, { st with console := c, byte_esc_seq := seq })
  | .ok (.error, c) => (none, { st with console := c, byte_esc_seq := [] })
  | .ok (.successful, c) => (none, { st with console := c, byte_esc_seq := [] })
  | .ok (.incomplete, c) => (none, { st with console := c, byte_esc_seq := seq })

/-- The per-byte treatment of `write`: continue an accumulating escape
sequence, or start one at a C0 control byte (flushing pending printable bytes
first), or buffer a printable byte. -/
def processByte (st : RawIOState) (b : Nat) : Option PyErr × RawIOState :=
  if st.byte_esc_seq ≠ [] then
    stepEscSeq st (st.byte_esc_seq ++ [b])
  else if b ≤ 0x1f then
    match flushDisplay st with
    | (some e, st2) => (some e, st2)
    | (none, st2) => stepEscSeq st2 [b]
  else
    (none, { st with byte_displaying_char := st.byte_displaying_char ++ [b] })

/-- Process a byte list in order, stopping at a raised exception. -/
def processBytes : RawIOState → List Nat → Option PyErr × RawIOState
  | st, [] => (none, st)
  | st, b :: bs =>
    match processByte st b with
    | (some e, st2) => (some e, st2)
    | (none, st2) => processBytes st2 bs

/-- `write(bytestream)`: truncate the buffer to its longest valid-UTF-8 prefix
(the strict decode's `err.start`), process the remaining bytes one at a time,
flush the pending printable run, and return the truncated length. -/
def rawWrite (st : RawIOState) (bytestream : List Nat) :
    Except (PyErr × RawIOState) (Nat × RawIOState) :=
  let byte_sequence := bytestream.take (utf8ValidPrefixLen bytestream)
  let nb_decoded_bytes := byte_sequence.length
  match processBytes st byte_sequence with
  | (some e, st2) => .error (e, st2)
  | (none, st2) =>
    match flushDisplay st2 with
    | (some e, st3) => .error (e, st3)
    | (none, st3) => .ok (nb_decoded_bytes, st3)

/-! ## Specification-side helper definitions -/

/-- The pure-list effect of clearing a list of indices in order. -/
def listClear (s : List (Option CharArgs)) (idxs : List Int) : List (Option CharArgs) :=
  idxs.foldl (fun t i => t.set i.toNat none) s

/-! ## Concrete states used by individual claims -/

/-- A 2x2 console whose memory size has been set to exactly `width*height`. -/
def c1Console : ConsoleState := setMemorySize (initConsole 2 2 255 255) 4

/-- A fresh 2x2 console with bold switched on. -/
def c2Console : ConsoleState := { initConsole 2 2 255 255 with bold := true }

/-- An 80x24 console with the cursor at stream position 42. -/
def c3Console : ConsoleState := { initConsole 80 24 255 255 with cursor := 42 }

/-- A fresh 2x2 console. -/
def c4Console : ConsoleState := initConsole 2 2 255 255

/-- A fresh 2x2 console (used by the C5 witness). -/
def c5Console : ConsoleState := initConsole 2 2 255 255

/-- A 1x4 console whose stream has grown by one row, with the viewport on the
last four cells: the boundary case `end_window + width*n = length` of the
scroll-down clamp. -/
def c6Boundary : ConsoleState :=
  { initConsole 1 4 255 255 with
    presentation_stream := List.replicate 5 none,
    cursor := 5, start_window := 1, end_window := 4 }

/-- A 2x2 console with one row of history above the viewport. -/
def c6Example : ConsoleState :=
  { initConsole 2 2 255 255 with
    presentation_stream := List.replicate 6 none,
    cursor := 6, start_window := 2, end_window := 5 }

/-- A 2x2 console with two characters written. -/
def c7Example : ConsoleState := (add_char (initConsole 2 2 255 255) ['a', 'b']).2

/-- A fresh 2x2 console whose cursor was pushed past the stream length by
three `line_field()` calls. -/
def c9Bad : ConsoleState := { initConsole 2 2 255 255 with cursor := 6 }

/-- A 2x2 console with two characters written (used for the clear frame
conditions). -/
def c9Example : ConsoleState := (add_char (initConsole 2 2 255 255) ['x', 'y']).2

/-- The raw state used by the C8 witness. -/
def c8State : RawIOState := ⟨initConsole 2 2 255 255, [], []⟩

/-- The byte buffer of the C8 witness: "He", a complete two-byte character,
then a dangling lead byte. -/
def c8Buffer : List Nat := [72, 101, 195, 169, 195]

/-! ## Helper lemmas -/

/-- In-range non-negative deque assignment is a plain list `set`. -/
theorem dqSet_in_range (xs : List (Option CharArgs)) (i : Int) (v : Option CharArgs)
    (h0 : 0 ≤ i) (h1 : i < (xs.length : Int)) :
    dqSet xs i v = .ok (xs.set i.toNat v) := by
  have hi : ¬ i < 0 := by omega
  simp only [dqSet, if_neg hi]
  rw [if_pos ⟨h0, h1⟩]

/-- Clearing preserves the stream length. -/
theorem listClear_length (idxs : List Int) (s : List (Option CharArgs)) :
    (listClear s idxs).length = s.length := by
  induction idxs generalizing s with
  | nil => rfl
  | cons i rest ih =>
    show (listClear (s.set i.toNat none) rest).length = s.length
    rw [ih, List.length_set]

/-- `getD` after a single `set`. -/
theorem getD_set (s : List (Option CharArgs)) (k j : Nat) (v : Option CharArgs) :
    (s.set k v).getD j none = if k = j ∧ j < s.length then v else s.getD j none := by
  induction s generalizing k j with
  | nil => simp
  | cons a t ih =>
    cases k with
    | zero =>
      cases j with
      | zero => simp
      | succ j => simp [List.getD_cons_succ]
    | succ k =>
      cases j with
      | zero => simp
      | succ j =>
        show (a :: t.set k v).getD (j + 1) none = _
        rw [List.getD_cons_succ, ih]
        have hiff : (k + 1 = j + 1 ∧ j + 1 < (a :: t).length) ↔ (k = j ∧ j < t.length) := by
          rw [List.length_cons]; omega
        rw [if_congr hiff rfl rfl, List.getD_cons_succ]

/-- `getD` after clearing a list of non-negative indices. -/
theorem listClear_getD (idxs : List Int) (s : List (Option CharArgs)) (j : Nat)
    (hj : j < s.length) (hnn : ∀ i ∈ idxs, 0 ≤ i) :
    (listClear s idxs).getD j none =
      if (j : Int) ∈ idxs then none else s.getD j none := by
  induction idxs generalizing s with
  | nil => simp [listClear]
  | cons i rest ih =>
    have h0 : 0 ≤ i := hnn i (List.mem_cons_self i rest)
    have step : listClear s (i :: rest) = listClear (s.set i.toNat none) rest := rfl
    rw [step, ih (s.set i.toNat none) (by rw [List.length_set]; exact hj)
      (fun x hx => hnn x (List.mem_cons_of_mem i hx))]
    by_cases hm : (j : Int) ∈ rest
    · rw [if_pos hm, if_pos (List.mem_cons_of_mem i hm)]
    · rw [if_neg hm, getD_set]
      by_cases he : (j : Int) = i
      · rw [if_pos ⟨by omega, hj⟩, if_pos (by rw [List.mem_cons]; exact Or.inl he)]
      · rw [if_neg (by omega), if_neg (by rw [List.mem_cons]; push_neg; exact ⟨he, hm⟩)]

/-- Membership in a Python integer range. -/
theorem mem_pyRange (a b i : Int) : i ∈ pyRange a b ↔ a ≤ i ∧ i < b := by
  unfold pyRange
  rw [List.mem_map]
  constructor
  · rintro ⟨k, hk, rfl⟩
    rw [List.mem_range] at hk
    omega
  · rintro ⟨h1, h2⟩
    refine ⟨(i - a).toNat, ?_, ?_⟩
    · rw [List.mem_range]; omega
    · omega

/-- Clearing a list of in-range indices completes normally, with the
presentation stream as the only modified field. -/
theorem clearCells_ok (idxs : List Int) (c : ConsoleState)
    (h : ∀ i ∈ idxs, 0 ≤ i ∧ i < (c.presentation_stream.length : Int)) :
    clearCells c idxs =
      (none, { c with presentation_stream := listClear c.presentation_stream idxs }) := by
  induction idxs generalizing c with
  | nil => rfl
  | cons i rest ih =>
    obtain ⟨h0, h1⟩ := h i (List.mem_cons_self i rest)
    rw [clearCells, dqSet_in_range _ _ _ h0 h1]
    show clearCells { c with presentation_stream := c.presentation_stream.set i.toNat none } rest = _
    rw [ih _ (fun x hx => by
      have := h x (List.mem_cons_of_mem i hx)
      simpa [List.length_set] using this)]
    rfl

/-! ## UTF-8 prefix lemmas -/

/-- A successful continuation consumption accounts for exactly the required
bytes. -/
theorem takeConts_length (rs : List (Nat × Nat)) (bs r : List Nat)
    (h : takeConts rs bs = some r) : bs.length = rs.length + r.length := by
  induction rs generalizing bs with
  | nil =>
    simp only [takeConts, Option.some.injEq] at h
    subst h
    simp
  | cons p rest ih =>
    obtain ⟨lo, hi⟩ := p
    cases bs with
    | nil => simp [takeConts] at h
    | cons b bs2 =>
      simp only [takeConts] at h
      split at h
      · have := ih bs2 h
        simp only [List.length_cons]
        omega
      · simp at h

/-- Truncating the input of a successful continuation consumption at or past
the required bytes truncates the remainder. -/
theorem takeConts_take_ge (rs : List (Nat × Nat)) (bs r : List Nat) (k : Nat)
    (h : takeConts rs bs = some r) (hk : rs.length ≤ k) :
    takeConts rs (bs.take k) = some (r.take (k - rs.length)) := by
  induction rs generalizing bs k with
  | nil =>
    simp only [takeConts, Option.some.injEq] at h
    subst h
    simp [takeConts]
  | cons p rest ih =>
    obtain ⟨lo, hi⟩ := p
    cases bs with
    | nil => simp [takeConts] at h
    | cons b bs2 =>
      simp only [takeConts] at h
      split at h
      case isTrue hin =>
        cases k with
        | zero => simp at hk
        | succ k2 =>
          simp only [List.take_succ_cons, takeConts, if_pos hin]
          rw [ih bs2 k2 h (by simpa using hk)]
          rw [List.length_cons, Nat.succ_sub_succ]
      case isFalse hin => simp at h

/-- Truncating the input of a failing continuation consumption still fails. -/
theorem takeConts_none_take (rs : List (Nat × Nat)) (bs : List Nat) (k : Nat)
    (h : takeConts rs bs = none) : takeConts rs (bs.take k) = none := by
  induction rs generalizing bs k with
  | nil => simp [takeConts] at h
  | cons p rest ih =>
    obtain ⟨lo, hi⟩ := p
    cases bs with
    | nil => simp [takeConts]
    | cons b bs2 =>
      cases k with
      | zero => rfl
      | succ k2 =>
        simp only [List.take_succ_cons, takeConts] at h ⊢
        split at h
        case isTrue hin => rw [if_pos hin]; exact ih bs2 k2 h
        case isFalse hin => rw [if_neg hin]

/-- The scan never claims more than the whole input. -/
theorem utf8ScanAux_le (f : Nat) (bs : List Nat) : utf8ScanAux f bs ≤ bs.length := by
  induction f generalizing bs with
  | zero => cases bs <;> simp [utf8ScanAux]
  | succ f ih =>
    cases bs with
    | nil => simp [utf8ScanAux]
    | cons b rest =>
      cases hl : leadRanges b with
      | none => simp [utf8ScanAux, hl]
      | some rs =>
        cases ht : takeConts rs rest with
        | none => simp [utf8ScanAux, hl, ht]
        | some r =>
          have h1 := takeConts_length rs rest r ht
          have h2 := ih r
          simp only [utf8ScanAux, hl, ht, List.length_cons]
          omega

/-- The scan does not depend on the fuel once it covers the input. -/
theorem utf8ScanAux_congr (f g : Nat) (bs : List Nat)
    (hf : bs.length ≤ f) (hg : bs.length ≤ g) :
    utf8ScanAux f bs = utf8ScanAux g bs := by
  induction f generalizing g bs with
  | zero =>
    cases bs with
    | nil => cases g <;> rfl
    | cons b rest => simp at hf
  | succ f ih =>
    cases bs with
    | nil => cases g <;> rfl
    | cons b rest =>
      cases g with
      | zero => simp at hg
      | succ g2 =>
        cases hl : leadRanges b with
        | none => simp [utf8ScanAux, hl]
        | some rs =>
          cases ht : takeConts rs rest with
          | none => simp [utf8ScanAux, hl, ht]
          | some r =>
            have h1 := takeConts_length rs rest r ht
            simp only [List.length_cons] at hf hg
            simp only [utf8ScanAux, hl, ht]
            rw [ih g2 r (by omega) (by omega)]

/-- The decoder does not depend on the fuel once it covers the input. -/
theorem utf8DecodeCharsAux_congr (f g : Nat) (bs : List Nat)
    (hf : bs.length ≤ f) (hg : bs.length ≤ g) :
    utf8DecodeCharsAux f bs = utf8DecodeCharsAux g bs := by
  induction f generalizing g bs with
  | zero =>
    cases bs with
    | nil => cases g <;> rfl
    | cons b rest => simp at hf
  | succ f ih =>
    cases bs with
    | nil => cases g <;> rfl
    | cons b rest =>
      cases g with
      | zero => simp at hg
      | succ g2 =>
        cases hl : leadRanges b with
        | none => simp [utf8DecodeCharsAux, hl]
        | some rs =>
          cases ht : takeConts rs rest with
          | none => simp [utf8DecodeCharsAux, hl, ht]
          | some r =>
            have h1 := takeConts_length rs rest r ht
            simp only [List.length_cons] at hf hg
            simp only [utf8DecodeCharsAux, hl, ht]
            rw [ih g2 r (by omega) (by omega)]

/-- One-character unfolding of the prefix scan. -/
theorem utf8ValidPrefixLen_cons (b : Nat) (rest : List Nat) :
    utf8ValidPrefixLen (b :: rest) =
      (match leadRanges b with
       | none => 0
       | some rs =>
         match takeConts rs rest with
         | none => 0
         | some r => (1 + rs.length) + utf8ValidPrefixLen r) := by
  show utf8ScanAux (rest.length + 1) (b :: rest) = _
  cases hl : leadRanges b with
  | none => simp [utf8ScanAux, hl]
  | some rs =>
    cases ht : takeConts rs rest with
    | none => simp [utf8ScanAux, hl, ht]
    | some r =>
      have h1 := takeConts_length rs rest r ht
      simp only [utf8ScanAux, hl, ht]
      rw [utf8ScanAux_congr rest.length r.length r (by omega) (by omega)]
      rfl

/-- One-character unfolding of validity. -/
theorem utf8Valid_cons (b : Nat) (rest : List Nat) :
    utf8Valid (b :: rest) =
      (match leadRanges b with
       | none => false
       | some rs =>
         match takeConts rs rest with
         | none => false
         | some r => utf8Valid r) := by
  show (utf8DecodeCharsAux (rest.length + 1) (b :: rest)).isSome = _
  cases hl : leadRanges b with
  | none => simp [utf8DecodeCharsAux, hl]
  | some rs =>
    cases ht : takeConts rs rest with
    | none => simp [utf8DecodeCharsAux, hl, ht]
    | some r =>
      have h1 := takeConts_length rs rest r ht
      simp only [utf8DecodeCharsAux, hl, ht]
      rw [utf8DecodeCharsAux_congr rest.length r.length r (by omega) (by omega)]
      show (match utf8DecodeCharsAux r.length r with
        | none => none
        | some cs => some (Char.ofNat (utf8Combine b (rest.take rs.length)) :: cs)).isSome =
          (utf8DecodeCharsAux r.length r).isSome
      cases utf8DecodeCharsAux r.length r <;> rfl

/-- Validity is equivalent to the prefix scan covering the whole input. -/
theorem utf8Valid_iff_prefixLen_aux (f : Nat) : ∀ bs : List Nat, bs.length ≤ f →
    (utf8Valid bs = true ↔ utf8ValidPrefixLen bs = bs.length) := by
  induction f with
  | zero =>
    intro bs h
    cases bs with
    | nil => simp [utf8Valid, utf8DecodeChars, utf8DecodeCharsAux, utf8ValidPrefixLen, utf8ScanAux]
    | cons b rest => simp at h
  | succ f ih =>
    intro bs h
    cases bs with
    | nil => simp [utf8Valid, utf8DecodeChars, utf8DecodeCharsAux, utf8ValidPrefixLen, utf8ScanAux]
    | cons b rest =>
      cases hl : leadRanges b with
      | none =>
        simp only [utf8Valid_cons, utf8ValidPrefixLen_cons, hl, List.length_cons]
        constructor
        · intro hx; exact absurd hx (by simp)
        · intro hx; exact absurd hx (by omega)
      | some rs =>
        cases ht : takeConts rs rest with
        | none =>
          simp only [utf8Valid_cons, utf8ValidPrefixLen_cons, hl, ht, List.length_cons]
          constructor
          · intro hx; exact absurd hx (by simp)
          · intro hx; exact absurd hx (by omega)
        | some r =>
          have h1 := takeConts_length rs rest r ht
          simp only [List.length_cons] at h
          simp only [utf8Valid_cons, utf8ValidPrefixLen_cons, hl, ht, List.length_cons]
          constructor
          · intro hv
            have h5 := (ih r (by omega)).mp hv
            rw [h5, h1]
            ring
          · intro he
            have he2 : 1 + rs.length + utf8ValidPrefixLen r = rest.length + 1 := he
            apply (ih r (by omega)).mpr
            omega


/-- Validity is equivalent to the prefix scan covering the whole input. -/
theorem utf8Valid_iff_prefixLen (bs : List Nat) :
    utf8Valid bs = true ↔ utf8ValidPrefixLen bs = bs.length :=
  utf8Valid_iff_prefixLen_aux bs.length bs (Nat.le_refl _)

/-- The prefix scan is bounded by the length. -/
theorem utf8ValidPrefixLen_le (bs : List Nat) : utf8ValidPrefixLen bs ≤ bs.length :=
  utf8ScanAux_le bs.length bs

/-- Scanning the scanned prefix again claims all of it. -/
theorem utf8ValidPrefixLen_take_self_aux (f : Nat) : ∀ bs : List Nat, bs.length ≤ f →
    utf8ValidPrefixLen (bs.take (utf8ValidPrefixLen bs)) = utf8ValidPrefixLen bs := by
  induction f with
  | zero =>
    intro bs h
    cases bs with
    | nil => rfl
    | cons b rest => simp at h
  | succ f ih =>
    intro bs h
    cases bs with
    | nil => rfl
    | cons b rest =>
      cases hl : leadRanges b with
      | none =>
        simp only [utf8ValidPrefixLen_cons, hl, List.take_zero]
        rfl
      | some rs =>
        cases ht : takeConts rs rest with
        | none =>
          simp only [utf8ValidPrefixLen_cons, hl, ht, List.take_zero]
          rfl
        | some r =>
          have h1 := takeConts_length rs rest r ht
          simp only [List.length_cons] at h
          have htg := takeConts_take_ge rs rest r (rs.length + utf8ValidPrefixLen r) ht
            (by omega)
          have hms : (rs.length + utf8ValidPrefixLen r) - rs.length =
              utf8ValidPrefixLen r := by omega
          rw [hms] at htg
          have hih := ih r (by omega)
          simp only [utf8ValidPrefixLen_cons, hl, ht]
          have hsplit : (1 + rs.length) + utf8ValidPrefixLen r =
              (rs.length + utf8ValidPrefixLen r) + 1 := by omega
          rw [hsplit, List.take_succ_cons]
          simp only [utf8ValidPrefixLen_cons, hl, htg]
          rw [hih]
          show (1 + rs.length) + utf8ValidPrefixLen r = (rs.length + utf8ValidPrefixLen r) + 1
          omega

/-- Scanning the scanned prefix again claims all of it. -/
theorem utf8ValidPrefixLen_take_self (bs : List Nat) :
    utf8ValidPrefixLen (bs.take (utf8ValidPrefixLen bs)) = utf8ValidPrefixLen bs :=
  utf8ValidPrefixLen_take_self_aux bs.length bs (Nat.le_refl _)

/-- Any strictly longer prefix than the scanned one is invalid. -/
theorem utf8Valid_take_false_aux (f : Nat) : ∀ (bs : List Nat) (m : Nat), bs.length ≤ f →
    utf8ValidPrefixLen bs < m → m ≤ bs.length → utf8Valid (bs.take m) = false := by
  induction f with
  | zero =>
    intro bs m h h1 h2
    omega
  | succ f ih =>
    intro bs m h h1 h2
    cases bs with
    | nil => simp at h2; omega
    | cons b rest =>
      obtain ⟨m2, rfl⟩ : ∃ m2, m = m2 + 1 := ⟨m - 1, by omega⟩
      rw [List.take_succ_cons]
      cases hl : leadRanges b with
      | none => simp [utf8Valid_cons, hl]
      | some rs =>
        cases ht : takeConts rs rest with
        | none =>
          simp [utf8Valid_cons, hl, takeConts_none_take rs rest m2 ht]
        | some r =>
          simp only [utf8ValidPrefixLen_cons, hl, ht] at h1
          have h1c : 1 + rs.length + utf8ValidPrefixLen r < m2 + 1 := h1
          have h3 := takeConts_length rs rest r ht
          simp only [List.length_cons] at h h2
          have htg := takeConts_take_ge rs rest r m2 ht (by omega)
          simp only [utf8Valid_cons, hl, htg]
          exact ih r (m2 - rs.length) (by omega) (by omega) (by omega)

/-- On ASCII bytes the fuelled strict decoder is the identity character
mapping. -/
theorem utf8DecodeCharsAux_ascii (f : Nat) : ∀ bs : List Nat, bs.length ≤ f →
    (∀ b ∈ bs, b ≤ 0x7f) → utf8DecodeCharsAux f bs = some (bs.map Char.ofNat) := by
  induction f with
  | zero =>
    intro bs hf h
    cases bs with
    | nil => rfl
    | cons b rest => simp at hf
  | succ f ih =>
    intro bs hf h
    cases bs with
    | nil => rfl
    | cons b rest =>
      have hb : b ≤ 0x7f := h b (List.mem_cons_self b rest)
      have hl : leadRanges b = some [] := by
        unfold leadRanges
        rw [if_pos hb]
      simp only [List.length_cons] at hf
      simp only [utf8DecodeCharsAux, hl, takeConts]
      rw [ih rest (by omega) (fun x hx => h x (List.mem_cons_of_mem b hx))]
      simp [utf8Combine, hb]

/-- On ASCII bytes the strict decode is the identity character mapping. -/
theorem utf8DecodeChars_ascii (bs : List Nat) (h : ∀ b ∈ bs, b ≤ 0x7f) :
    utf8DecodeChars bs = some (bs.map Char.ofNat) :=
  utf8DecodeCharsAux_ascii bs.length bs (Nat.le_refl _) h

/-! ## Claims -/

/-- C1: with `memory_size = width*height = 4`, adding 4 characters from the
fresh state succeeds, but the 5th `add_char` does not perform the claimed
row eviction: the one-row deque extension leaves the length at `4` while the
cursor is `4`, and the store `self._presentation_stream[4]` raises
`IndexError`, which escapes `add_char`. -/
theorem C1_full_memory_add_char_raises :
    (add_char c1Console (List.replicate 4 'a')).1 = none ∧
    (add_char c1Console (List.replicate 5 'a')).1 = some PyErr.indexError := by
  constructor <;> rfl

/-- C2: decoding `ESC [ m` (empty SGR parameter list) is classified as
successful but performs no reset at all: Python's `''.split(';')` yields
`['']`, never the empty list, so the `len(seq_list) == 0` fallback to `['0']`
is dead code and the `''` sub-parameter is silently ignored.  On a console
with bold on, the state is returned unchanged. -/
theorem C2_empty_sgr_is_ignored :
    escSeqDecode [0x1b, 0x5b, 0x6d] c2Console = .ok (.successful, c2Console) ∧
    c2Console.bold = true := by
  constructor <;> rfl

/-- C3 counterexample: with width 80 and cursor 42, `carriage_return()` does
not set the cursor to 40, and the following `line_field()` does not set it to
120 (the true values are 0 and 80). -/
theorem C3_counterexample :
    (carriage_return c3Console).cursor ≠ 40 ∧
    (line_field (carriage_return c3Console)).cursor ≠ 120 := by
  constructor <;> decide

/-- C3 amended: with width 80 and cursor 42, `carriage_return()` sets the
cursor to `(42 // 80) * 80 = 0`, and a following `line_field()` sets it to
`0 + 80 = 80`. -/
theorem C3_amended_carriage_return_line_field :
    (carriage_return c3Console).cursor = 0 ∧
    (line_field (carriage_return c3Console)).cursor = 80 := by
  constructor <;> rfl

/-- C4: the `foreground_colour` setter is not exception-free on every
malformed value: a non-sequence value such as the integer 5 reaches
`len(value)` and raises `TypeError` (escaping the setter), rather than being
rejected with a warning while keeping the previous colour.  The stored colour
is indeed still unchanged when the exception escapes. -/
theorem C4_foreground_setter_raises_on_int :
    (setForegroundColour c4Console (.pyint 5)).1 = some PyErr.typeError ∧
    (setForegroundColour c4Console (.pyint 5)).2 = c4Console := by
  constructor <;> rfl

/-- C10: the transparency setters clamp an integer argument into `[0, 255]`
instead of rejecting it: values above 255 store 255, negative values store 0,
and in-range values are stored as given. -/
theorem C10_transparency_setters_clamp (c : ConsoleState) (v : Int) :
    (255 < v → (setFontTransparency c v).font_transparency = 255 ∧
      (setBackgroundTransparency c v).background_transparency = 255) ∧
    (v < 0 → (setFontTransparency c v).font_transparency = 0 ∧
      (setBackgroundTransparency c v).background_transparency = 0) ∧
    (0 ≤ v → v ≤ 255 →
      (setFontTransparency c v).font_transparency = v ∧
      (setBackgroundTransparency c v).background_transparency = v) := by
  refine ⟨fun h => ?_, fun h => ?_, fun h1 h2 => ?_⟩ <;>
    constructor <;>
    simp only [setFontTransparency, setBackgroundTransparency] <;>
    split_ifs <;> omega

/-- C10 witness: at the concrete out-of-range input 300 both setters store
255. -/
theorem C10_transparency_setters_clamp_witness :
    (setFontTransparency c4Console 300).font_transparency = 255 ∧
    (setBackgroundTransparency c4Console 300).background_transparency = 255 :=
  (C10_transparency_setters_clamp c4Console 300).1 (by norm_num)

/-- C7: under the data-model invariants (`memory_size ≥ width*height`, the
viewport inside the stream), `clear("all")` resets the cursor to 0, the
viewport to `[0, width*height-1]` and replaces the stream with `width*height`
empty cells, and `clear("all_without_memory")` empties exactly the cells in
`[start_window, end_window]`, preserving the cursor, the stream length and
every cell outside that interval. -/
theorem C7_clear_all_and_viewport (c : ConsoleState)
    (hmem : c.width * c.height ≤ c.char_memory_size)
    (hsw : 0 ≤ c.start_window)
    (hew : c.end_window < (c.presentation_stream.length : Int)) :
    ((clear c "all").1 = none ∧
     (clear c "all").2.cursor = 0 ∧
     (clear c "all").2.start_window = 0 ∧
     (clear c "all").2.end_window = (c.width * c.height : Int) - 1 ∧
     (clear c "all").2.presentation_stream = List.replicate (c.width * c.height) none) ∧
    ((clear c "all_without_memory").1 = none ∧
     (clear c "all_without_memory").2.cursor = c.cursor ∧
     (clear c "all_without_memory").2.start_window = c.start_window ∧
     (clear c "all_without_memory").2.end_window = c.end_window ∧
     (clear c "all_without_memory").2.presentation_stream.length
        = c.presentation_stream.length ∧
     ∀ j : Nat, j < c.presentation_stream.length →
       (clear c "all_without_memory").2.presentation_stream.getD j none =
         (if c.start_window ≤ (j : Int) ∧ (j : Int) ≤ c.end_window then none
          else c.presentation_stream.getD j none)) := by
  have hcond : ∀ i ∈ pyRange c.start_window (c.end_window + 1),
      0 ≤ i ∧ i < (c.presentation_stream.length : Int) := by
    intro i hi
    rw [mem_pyRange] at hi
    omega
  have hawm : clear c "all_without_memory" =
      clearCells c (pyRange c.start_window (c.end_window + 1)) := rfl
  constructor
  · refine ⟨rfl, rfl, rfl, rfl, ?_⟩
    show dequeNew (c.width * c.height) c.char_memory_size = _
    unfold dequeNew
    rw [Nat.sub_eq_zero_of_le hmem, List.drop_zero]
  · rw [hawm, clearCells_ok _ _ hcond]
    refine ⟨rfl, rfl, rfl, rfl, listClear_length _ _, ?_⟩
    intro j hj
    show (listClear c.presentation_stream _).getD j none = _
    rw [listClear_getD _ _ _ hj (fun i hi => (hcond i hi).1)]
    have hiff : ((j : Int) ∈ pyRange c.start_window (c.end_window + 1)) ↔
        (c.start_window ≤ (j : Int) ∧ (j : Int) ≤ c.end_window) := by
      rw [mem_pyRange]; omega
    rw [if_congr hiff rfl rfl]

/-- C7 witness: on a 2x2 console with two characters written, `clear("all")`
moves the cursor to 0, `clear("all_without_memory")` keeps the cursor and
empties cell 0. -/
theorem C7_clear_all_and_viewport_witness :
    (clear c7Example "all").2.cursor = 0 ∧
    (clear c7Example "all_without_memory").2.cursor = c7Example.cursor ∧
    (clear c7Example "all_without_memory").2.presentation_stream.getD 0 none = none := by
  have h := C7_clear_all_and_viewport c7Example (by decide) (by decide) (by decide)
  refine ⟨h.1.2.1, h.2.2.1, ?_⟩
  rw [h.2.2.2.2.2.2 0 (by decide)]
  decide

/-- C9 counterexample: on a reachable state whose cursor (6) exceeds the
stream length (4), `clear("before")` does not complete with the claimed frame
effect: the clearing loop reaches index 4 and raises `IndexError`. -/
theorem C9_counterexample :
    (clear c9Bad "before").1 = some PyErr.indexError := by rfl

/-- C9 amended: for every state whose viewport and cursor lie inside the
stream (`0 ≤ start_window`, `0 ≤ cursor ≤ length`, `end_window < length`),
`clear("before")` and `clear("after")` complete normally, leave the cursor,
`start_window`, `end_window` and the stream length unchanged, and their only
effect is setting the cells of `[start_window, cursor)` respectively
`[cursor, end_window]` to empty. -/
theorem C9_clear_before_after_frame (c : ConsoleState)
    (hsw : 0 ≤ c.start_window)
    (hc0 : 0 ≤ c.cursor)
    (hcl : c.cursor ≤ (c.presentation_stream.length : Int))
    (hew : c.end_window < (c.presentation_stream.length : Int)) :
    ((clear c "before").1 = none ∧
     (clear c "before").2.cursor = c.cursor ∧
     (clear c "before").2.start_window = c.start_window ∧
     (clear c "before").2.end_window = c.end_window ∧
     (clear c "before").2.presentation_stream.length = c.presentation_stream.length ∧
     ∀ j : Nat, j < c.presentation_stream.length →
       (clear c "before").2.presentation_stream.getD j none =
         (if c.start_window ≤ (j : Int) ∧ (j : Int) < c.cursor then none
          else c.presentation_stream.getD j none)) ∧
    ((clear c "after").1 = none ∧
     (clear c "after").2.cursor = c.cursor ∧
     (clear c "after").2.start_window = c.start_window ∧
     (clear c "after").2.end_window = c.end_window ∧
     (clear c "after").2.presentation_stream.length = c.presentation_stream.length ∧
     ∀ j : Nat, j < c.presentation_stream.length →
       (clear c "after").2.presentation_stream.getD j none =
         (if c.cursor ≤ (j : Int) ∧ (j : Int) ≤ c.end_window then none
          else c.presentation_stream.getD j none)) := by
  have hbef : clear c "before" = clearCells c (pyRange c.start_window c.cursor) := rfl
  have haft : clear c "after" = clearCells c (pyRange c.cursor (c.end_window + 1)) := rfl
  have hcondb : ∀ i ∈ pyRange c.start_window c.cursor,
      0 ≤ i ∧ i < (c.presentation_stream.length : Int) := by
    intro i hi
    rw [mem_pyRange] at hi
    omega
  have hconda : ∀ i ∈ pyRange c.cursor (c.end_window + 1),
      0 ≤ i ∧ i < (c.presentation_stream.length : Int) := by
    intro i hi
    rw [mem_pyRange] at hi
    omega
  constructor
  · rw [hbef, clearCells_ok _ _ hcondb]
    refine ⟨rfl, rfl, rfl, rfl, listClear_length _ _, ?_⟩
    intro j hj
    show (listClear c.presentation_stream _).getD j none = _
    rw [listClear_getD _ _ _ hj (fun i hi => (hcondb i hi).1)]
    have hiff : ((j : Int) ∈ pyRange c.start_window c.cursor) ↔
        (c.start_window ≤ (j : Int) ∧ (j : Int) < c.cursor) := mem_pyRange _ _ _
    rw [if_congr hiff rfl rfl]
  · rw [haft, clearCells_ok _ _ hconda]
    refine ⟨rfl, rfl, rfl, rfl, listClear_length _ _, ?_⟩
    intro j hj
    show (listClear c.presentation_stream _).getD j none = _
    rw [listClear_getD _ _ _ hj (fun i hi => (hconda i hi).1)]
    have hiff : ((j : Int) ∈ pyRange c.cursor (c.end_window + 1)) ↔
        (c.cursor ≤ (j : Int) ∧ (j : Int) ≤ c.end_window) := by
      rw [mem_pyRange]; omega
    rw [if_congr hiff rfl rfl]

/-- C9 witness: on a 2x2 console with two characters written (cursor 2),
`clear("before")` keeps the cursor and empties cell 0, and `clear("after")`
completes normally. -/
theorem C9_clear_before_after_frame_witness :
    (clear c9Example "before").2.cursor = c9Example.cursor ∧
    (clear c9Example "before").2.presentation_stream.getD 0 none = none ∧
    (clear c9Example "after").1 = none := by
  have h := C9_clear_before_after_frame c9Example
    (by decide) (by decide) (by decide) (by decide)
  refine ⟨h.1.2.1, ?_, h.2.1⟩
  rw [h.1.2.2.2.2.2 0 (by decide)]
  decide

/-- Unfolding of `scroll` going up, as a record update. -/
theorem scroll_up_eq (c : ConsoleState) (n : Int) :
    scroll c n true =
      { c with
        start_window :=
          if c.start_window - (c.width : Int) * n < 0 then 0
          else c.start_window - (c.width : Int) * n,
        end_window :=
          (if c.start_window - (c.width : Int) * n < 0 then 0
           else c.start_window - (c.width : Int) * n) + (c.width : Int) * c.height - 1 } := rfl

/-- Unfolding of `scroll` going down, as a record update. -/
theorem scroll_down_eq (c : ConsoleState) (n : Int) :
    scroll c n false =
      { c with
        end_window :=
          if (c.presentation_stream.length : Int) < c.end_window + (c.width : Int) * n
          then (c.presentation_stream.length : Int) - 1
          else c.end_window + (c.width : Int) * n,
        start_window :=
          (if (c.presentation_stream.length : Int) < c.end_window + (c.width : Int) * n
           then (c.presentation_stream.length : Int) - 1
           else c.end_window + (c.width : Int) * n) - (c.width : Int) * c.height + 1 } := rfl

/-- C6 counterexample: on a 1x4 console whose stream has 5 cells with the
viewport on `[1, 4]`, scrolling down by one line does not clamp `end_window`
at `length - 1 = 4` (there is no history below): the guard `end_window +
width*n > length` is false at equality, so `end_window` becomes `5 = length`,
one past the last index. -/
theorem C6_counterexample :
    (scroll c6Boundary 1 false).end_window = 5 ∧
    (c6Boundary.presentation_stream.length : Int) - 1 = 4 := by
  constructor <;> rfl

/-- C6 amended: scrolling up by `n` then down by `n` on a well-formed state
with at least `n` rows of history above the viewport restores `start_window`
and `end_window` exactly; scrolling up past the available history clamps
`start_window` at 0; scrolling down with `end_window + width*n > length`
clamps `end_window` at `length - 1`; in the boundary case `end_window +
width*n = length` the code instead sets `end_window = length` (one past the
last index), which is what the counterexample forces the claim to concede. -/
theorem C6_scroll_roundtrip_and_clamp :
    (∀ (c : ConsoleState) (n : Int),
      c.end_window = c.start_window + (c.width : Int) * c.height - 1 →
      (c.width : Int) * n ≤ c.start_window →
      c.end_window < (c.presentation_stream.length : Int) →
      (scroll (scroll c n true) n false).start_window = c.start_window ∧
      (scroll (scroll c n true) n false).end_window = c.end_window) ∧
    (∀ (c : ConsoleState) (n : Int),
      c.start_window < (c.width : Int) * n →
      (scroll c n true).start_window = 0 ∧
      (scroll c n true).end_window = (c.width : Int) * c.height - 1) ∧
    (∀ (c : ConsoleState) (n : Int),
      (c.presentation_stream.length : Int) < c.end_window + (c.width : Int) * n →
      (scroll c n false).end_window = (c.presentation_stream.length : Int) - 1 ∧
      (scroll c n false).start_window =
        (c.presentation_stream.length : Int) - (c.width : Int) * c.height) ∧
    (∀ (c : ConsoleState) (n : Int),
      c.end_window + (c.width : Int) * n = (c.presentation_stream.length : Int) →
      (scroll c n false).end_window = (c.presentation_stream.length : Int)) := by
  refine ⟨?_, ?_, ?_, ?_⟩
  · intro c n h1 h2 h3
    rw [scroll_down_eq, scroll_up_eq]
    dsimp only
    rw [if_neg (show ¬ (c.start_window - (c.width : Int) * n < 0) by omega)]
    rw [if_neg (show ¬ ((c.presentation_stream.length : Int) <
      c.start_window - (c.width : Int) * n + (c.width : Int) * c.height - 1 +
        (c.width : Int) * n) by omega)]
    constructor <;> omega
  · intro c n h
    rw [scroll_up_eq]
    dsimp only
    rw [if_pos (show c.start_window - (c.width : Int) * n < 0 by omega)]
    exact ⟨rfl, by omega⟩
  · intro c n h
    rw [scroll_down_eq]
    dsimp only
    rw [if_pos h]
    exact ⟨rfl, by omega⟩
  · intro c n h
    rw [scroll_down_eq]
    dsimp only
    rw [if_neg (by omega)]
    omega

/-- C5: for every CSI Erase-in-Display sequence `ESC [ params J` whose
parameter bytes are ASCII, the decoder parses the decoded parameter string as
a Python integer with default 3 when it is absent or does not parse; mode 0
invokes `clear("after")`, 1 invokes `clear("before")`, 2 invokes
`clear("all_without_memory")`, 3 invokes `clear("all")`, and any other
integer classifies the sequence as an error with the console untouched.  The
ASCII restriction is the region where `pyStrToInt` is exactly CPython's
`int()`: a non-ASCII parameter can decode to a Unicode decimal digit such as
U+0664, which `int()` also accepts with interpreter-version-dependent
Unicode tables that this model deliberately does not cover. -/
theorem C5_erase_in_display_dispatch (params : List Nat) (c : ConsoleState)
    (hascii : ∀ b ∈ params, b ≤ 0x7f) :
    escSeqDecode (0x1b :: 0x5b :: (params ++ [0x4a])) c =
      (if (pyStrToInt (params.map Char.ofNat)).getD 3 = 0 then
         liftClear (clear c "after")
       else if (pyStrToInt (params.map Char.ofNat)).getD 3 = 1 then
         liftClear (clear c "before")
       else if (pyStrToInt (params.map Char.ofNat)).getD 3 = 2 then
         liftClear (clear c "all_without_memory")
       else if (pyStrToInt (params.map Char.ofNat)).getD 3 = 3 then
         liftClear (clear c "all")
       else .ok (.error, c)) := by
  have hne : params ++ [0x4a] ≠ [] := by simp
  have hdec : pyParseIntBytes params = pyStrToInt (params.map Char.ofNat) := by
    unfold pyParseIntBytes
    rw [utf8DecodeChars_ascii params hascii]
  simp only [escSeqDecode, List.getLastD_concat, List.dropLast_concat]
  rw [if_neg hne]
  norm_num [edDispatch, hdec]

/-- C5 witness: decoding the concrete sequence `ESC [ 1 J` on a fresh 2x2
console invokes `clear("before")`. -/
theorem C5_erase_in_display_dispatch_witness :
    escSeqDecode [0x1b, 0x5b, 0x31, 0x4a] c5Console =
      liftClear (clear c5Console "before") := by
  show escSeqDecode (0x1b :: 0x5b :: ([0x31] ++ [0x4a])) c5Console =
    liftClear (clear c5Console "before")
  rw [C5_erase_in_display_dispatch [0x31] c5Console (by decide)]
  rfl

/-- C6 witness: on a 2x2 console with one row of history above the viewport
`[2, 5]`, scrolling up one line and back down restores the viewport; scrolling
up by two lines clamps at 0; scrolling down one line past the history clamps
`end_window` at `length - 1 = 5`. -/
theorem C6_scroll_roundtrip_and_clamp_witness :
    (scroll (scroll c6Example 1 true) 1 false).start_window = 2 ∧
    (scroll (scroll c6Example 1 true) 1 false).end_window = 5 ∧
    (scroll c6Example 2 true).start_window = 0 ∧
    (scroll c6Example 1 false).end_window = 5 := by
  obtain ⟨h1, h2, h3, _⟩ := C6_scroll_roundtrip_and_clamp
  have ha := h1 c6Example 1 (by decide) (by decide) (by decide)
  have hb := h2 c6Example 2 (by decide)
  have hc := h3 c6Example 1 (by decide)
  exact ⟨ha.1, ha.2, hb.1, by rw [hc.1]; rfl⟩

/-- C8: `write` truncates every byte buffer to its longest valid-UTF-8 prefix:
that prefix is valid, every strictly longer prefix is invalid, the whole call
behaves exactly as the call on the truncated buffer (so the bytes after the
prefix are not decoded and malformed input never contributes an exception),
the returned count is the prefix length, and for a buffer that is not valid
as a whole (e.g. ending mid-character) that count is strictly less than the
buffer length. -/
theorem C8_write_utf8_prefix (buf : List Nat) (st : RawIOState) :
    utf8Valid (buf.take (utf8ValidPrefixLen buf)) = true ∧
    (∀ m : Nat, utf8ValidPrefixLen buf < m → m ≤ buf.length →
      utf8Valid (buf.take m) = false) ∧
    rawWrite st buf = rawWrite st (buf.take (utf8ValidPrefixLen buf)) ∧
    (utf8Valid buf = false → utf8ValidPrefixLen buf < buf.length) ∧
    (∀ (k : Nat) (st2 : RawIOState), rawWrite st buf = .ok (k, st2) →
      k = utf8ValidPrefixLen buf) := by
  have hle := utf8ValidPrefixLen_le buf
  have htake := utf8ValidPrefixLen_take_self buf
  have hlen_take : (buf.take (utf8ValidPrefixLen buf)).length = utf8ValidPrefixLen buf := by
    rw [List.length_take]
    omega
  refine ⟨?_, ?_, ?_, ?_, ?_⟩
  · rw [utf8Valid_iff_prefixLen, htake, hlen_take]
  · intro m hm1 hm2
    exact utf8Valid_take_false_aux buf.length buf m (Nat.le_refl _) hm1 hm2
  · simp only [rawWrite]
    rw [htake, List.take_take, Nat.min_self]
  · intro hv
    have hne : utf8ValidPrefixLen buf ≠ buf.length := by
      intro he
      have hvt := (utf8Valid_iff_prefixLen buf).mpr he
      rw [hv] at hvt
      exact Bool.false_ne_true hvt
    omega
  · intro k st2 hk
    simp only [rawWrite] at hk
    split at hk
    · exact absurd hk (by simp)
    · split at hk
      · exact absurd hk (by simp)
      · simp only [Except.ok.injEq, Prod.mk.injEq] at hk
        rw [← hk.1, hlen_take]

/-- C8 witness: on the concrete buffer "He" + "é" + a dangling lead byte, the
scanned prefix (4 bytes) is valid, the returned prefix length is strictly less
than the buffer length, and the 5-byte whole buffer is invalid. -/
theorem C8_write_utf8_prefix_witness :
    utf8Valid (c8Buffer.take (utf8ValidPrefixLen c8Buffer)) = true ∧
    utf8ValidPrefixLen c8Buffer < c8Buffer.length ∧
    utf8Valid (c8Buffer.take 5) = false := by
  have h := C8_write_utf8_prefix c8Buffer c8State
  exact ⟨h.1, h.2.2.2.1 (by decide), h.2.1 5 (by decide) (by decide)⟩

end PygConsole
